import Mathlib

/-!
# Verification of the session lifecycle manager (`session` package)

Shallow embedding of the session core of the `htmx_quickstart2` repository:
the `Session` / `Manager` data model and the operations `CreateSession`,
`GetSession` and `GetOrCreateSession` from `session/session.go`, together
with the slice of `config.Config` that the session code consumes.

Modelling conventions:
* Go's `time.Time` / `time.Duration` become `Nat` (an abstract instant /
  nanosecond count); `time.Now()` becomes an explicit `now : Nat` argument.
* The 16 random bytes drawn by `crypto/rand.Read` become an explicit
  entropy argument `b : List Nat` (each entry a byte value).
* The Go map `map[string]*Session` becomes an association list
  `List (String × Session)` with overwrite-on-insert semantics; the
  in-place mutation of a `*Session` record becomes replacing the entry.
* `net/http`'s `Request.Cookie` is modelled after the standard library:
  a cookie parsed from the `Cookie` request header carries only `Name`
  and `Value`; every other field of the returned `http.Cookie` is left at
  its zero value.  A failed read (`http.ErrNoCookie`) becomes `none`.
-/

namespace SessionCore

/-- Byte-to-hex alphabet, mirroring `encoding/hex`'s `hextable`. -/
def hexAlphabet : List Char := "0123456789abcdef".data

/-- `hextable[n]`: the hex digit for a nibble. Out-of-range indices (which
never occur for nibbles of a byte) default to `'0'`. -/
def hexDigit (n : Nat) : Char := hexAlphabet.getD n '0'

/-- Inverse of `hexDigit` on the hex alphabet (used only in proofs, to show
hex encoding is injective on byte strings). -/
def hexDigitVal (c : Char) : Nat :=
  match c with
  | '0' => 0 | '1' => 1 | '2' => 2 | '3' => 3 | '4' => 4
  | '5' => 5 | '6' => 6 | '7' => 7 | '8' => 8 | '9' => 9
  | 'a' => 10 | 'b' => 11 | 'c' => 12 | 'd' => 13 | 'e' => 14 | 'f' => 15
  | _ => 0

/-- Character stream of `hex.EncodeToString`: each byte `v` contributes
`hextable[v>>4]` then `hextable[v&0x0f]`. -/
def hexChars : List Nat → List Char
  | [] => []
  | v :: rest => hexDigit (v / 16) :: hexDigit (v % 16) :: hexChars rest

/-- `hex.EncodeToString`: lowercase hex, two characters per byte, high
nibble first. -/
def hexEncodeToString (bs : List Nat) : String := String.mk (hexChars bs)

/-- Proof-side decoder for `hexChars` (not part of the Go source; used to
establish injectivity of the encoding on byte strings). -/
def hexDecode : List Char → List Nat
  | c1 :: c2 :: rest => (16 * hexDigitVal c1 + hexDigitVal c2) :: hexDecode rest
  | _ => []

/-- `session.Session`: the state for a single user. -/
structure Session where
  ID : String
  LastAccessed : Nat
deriving DecidableEq

/-- `config.SessionConfig`: the session-related slice of the configuration. -/
structure SessionConfig where
  CookieName : String
  MaxAge : Nat
  Secure : Bool
  HttpOnly : Bool
  SameSite : String
  CleanupInterval : Nat
deriving DecidableEq

/-- `config.Config`, restricted to the field consumed by the session core
(the server/logging/database sections are never read by it). -/
structure Config where
  Session : SessionConfig
deriving DecidableEq

/-- Go's `net/http` same-site constants are small integers
(`SameSiteDefaultMode = 1`, `SameSiteLaxMode = 2`, `SameSiteStrictMode = 3`,
`SameSiteNoneMode = 4`); the zero value `0` marks an unset policy. -/
def SameSiteDefaultMode : Nat := 1

/-- `http.SameSiteLaxMode` (the value the session code hardcodes). -/
def SameSiteLaxMode : Nat := 2

/-- `http.SameSiteStrictMode`. -/
def SameSiteStrictMode : Nat := 3

/-- `http.SameSiteNoneMode`. -/
def SameSiteNoneMode : Nat := 4

/-- `http.Cookie`, restricted to the fields the session code sets or the
spec talks about.  `Expires := 0` is the zero `time.Time`; `SameSite := 0`
is the unset policy. -/
structure Cookie where
  Name : String
  Value : String
  Path : String
  Expires : Nat
  HttpOnly : Bool
  Secure : Bool
  SameSite : Nat
deriving DecidableEq

/-- The inbound request, reduced to its cookie jar (name → value pairs, in
header order), which is all the session code reads from it. -/
structure Request where
  cookies : List (String × String)
deriving DecidableEq

/-- `net/http`'s `(*Request).Cookie(name)`: returns the first cookie of the
given name as parsed from the `Cookie` header.  Such a cookie carries only
`Name` and `Value` — all other fields keep their zero values.  Absence
(`http.ErrNoCookie`) is modelled by `none`. -/
def Request.cookie (r : Request) (name : String) : Option Cookie :=
  match r.cookies.find? (fun p => p.1 = name) with
  | none => none
  | some p =>
      some { Name := name, Value := p.2, Path := "", Expires := 0,
             HttpOnly := false, Secure := false, SameSite := 0 }

/-- Lookup in the Go map `map[string]*Session`. -/
def mapLookup (k : String) : List (String × Session) → Option Session
  | [] => none
  | p :: rest => if p.1 = k then some p.2 else mapLookup k rest

/-- Insert/overwrite in the Go map `map[string]*Session`
(`m.sessions[k] = v`). -/
def mapInsert (k : String) (v : Session) : List (String × Session) → List (String × Session)
  | [] => [(k, v)]
  | p :: rest => if p.1 = k then (k, v) :: rest else p :: mapInsert k v rest

/-- `session.Manager`: the session store.  The mutex is not part of the
state model — each operation's whole body runs inside its critical section,
so operations are modelled as atomic state transformers. -/
structure Manager where
  sessions : List (String × Session)
  config : Config
deriving DecidableEq

/-- `session.NewManager`. -/
def NewManager (cfg : Config) : Manager :=
  { sessions := [], config := cfg }

/-- `(*Manager).CreateSession`: draw 16 random bytes (here the explicit
entropy argument `b`), hex-encode them as the id, insert a fresh record
with `LastAccessed = now`, and return the id. -/
def CreateSession (m : Manager) (b : List Nat) (now : Nat) : String × Manager :=
  let id := hexEncodeToString b
  (id, { m with sessions := mapInsert id { ID := id, LastAccessed := now } m.sessions })

/-- `(*Manager).GetSession`: on a hit, update the record's `LastAccessed`
to `now` (in Go an in-place mutation through the stored pointer) and return
it; on a miss return `nil` (`none`) and leave the store untouched. -/
def GetSession (m : Manager) (id : String) (now : Nat) : Option Session × Manager :=
  match mapLookup id m.sessions with
  | none => (none, m)
  | some s =>
      let s2 : Session := { s with LastAccessed := now }
      (some s2, { m with sessions := mapInsert id s2 m.sessions })

/-- The shared fall-through tail of `(*Manager).GetOrCreateSession`: create
a new session, build the outbound cookie from configuration (except
`SameSite`, hardcoded to `http.SameSiteLaxMode` in the source), and look
the new id up again. -/
def mintNewSession (m : Manager) (b : List Nat) (now : Nat) :
    Option Session × Cookie × Manager :=
  let created := CreateSession m b now
  let newCookie : Cookie :=
    { Name := m.config.Session.CookieName
      Value := created.1
      Path := "/"
      Expires := now + m.config.Session.MaxAge
      HttpOnly := m.config.Session.HttpOnly
      Secure := m.config.Session.Secure
      SameSite := SameSiteLaxMode }
  let looked := GetSession created.2 created.1 now
  (looked.1, newCookie, looked.2)

/-- `(*Manager).GetOrCreateSession`: if the request carries a cookie of the
configured name whose value names a live session, return that session and
re-emit the inbound cookie verbatim (`return session, *cookie`); otherwise
fall through to `mintNewSession`.  In Go the first component is the
possibly-nil result of the final `GetSession`, hence `Option Session`. -/
def GetOrCreateSession (m : Manager) (r : Request) (b : List Nat) (now : Nat) :
    Option Session × Cookie × Manager :=
  match Request.cookie r m.config.Session.CookieName with
  | some cookie =>
      match GetSession m cookie.Value now with
      | (some session, m1) => (some session, cookie, m1)
      | (none, m1) => mintNewSession m1 b now
  | none => mintNewSession m b now

/-! ## Basic lemmas about the embedded map and hex encoding -/

theorem mapLookup_mapInsert_self (k : String) (v : Session) (l : List (String × Session)) :
    mapLookup k (mapInsert k v l) = some v := by
  induction l with
  | nil => simp [mapInsert, mapLookup]
  | cons p rest ih =>
      by_cases h : p.1 = k
      · simp [mapInsert, mapLookup, h]
      · simp [mapInsert, mapLookup, h, ih]

theorem mapLookup_mapInsert_ne (k2 k : String) (v : Session) (l : List (String × Session))
    (h : k2 ≠ k) : mapLookup k2 (mapInsert k v l) = mapLookup k2 l := by
  induction l with
  | nil =>
      simp only [mapInsert, mapLookup]
      rw [if_neg (show ¬ k = k2 from fun h2 => h h2.symm)]
  | cons p rest ih =>
      by_cases hp : p.1 = k
      · simp only [mapInsert, if_pos hp, mapLookup]
        rw [if_neg (show ¬ k = k2 from fun h2 => h h2.symm),
            if_neg (show ¬ p.1 = k2 from fun h2 => h (h2 ▸ hp))]
      · simp only [mapInsert, if_neg hp, mapLookup]
        by_cases hq : p.1 = k2
        · rw [if_pos hq, if_pos hq]
        · rw [if_neg hq, if_neg hq, ih]

theorem mapInsert_mapInsert_self (k : String) (v w : Session) (l : List (String × Session)) :
    mapInsert k v (mapInsert k w l) = mapInsert k v l := by
  induction l with
  | nil => simp [mapInsert]
  | cons p rest ih =>
      by_cases h : p.1 = k
      · simp [mapInsert, h]
      · simp [mapInsert, h, ih]

theorem map_fst_mapInsert_of_lookup (k : String) (v s : Session) (l : List (String × Session))
    (h : mapLookup k l = some s) :
    (mapInsert k v l).map Prod.fst = l.map Prod.fst := by
  induction l with
  | nil => simp [mapLookup] at h
  | cons p rest ih =>
      by_cases hp : p.1 = k
      · simp [mapInsert, hp]
      · simp [mapLookup, hp] at h
        simp [mapInsert, hp, ih h]

theorem map_fst_mapInsert_of_none (k : String) (v : Session) (l : List (String × Session))
    (h : mapLookup k l = none) :
    (mapInsert k v l).map Prod.fst = l.map Prod.fst ++ [k] := by
  induction l with
  | nil => simp [mapInsert]
  | cons p rest ih =>
      by_cases hp : p.1 = k
      · simp [mapLookup, hp] at h
      · simp [mapLookup, hp] at h
        simp [mapInsert, hp, ih h]

theorem lookup_eq_none_iff_not_mem_fst (k : String) (l : List (String × Session)) :
    mapLookup k l = none ↔ k ∉ l.map Prod.fst := by
  induction l with
  | nil => simp [mapLookup]
  | cons p rest ih =>
      by_cases hp : p.1 = k
      · simp [mapLookup, hp]
      · have : ¬ (k = p.1) := fun h2 => hp h2.symm
        simp [mapLookup, hp, ih, this]

/-- Store well-formedness: every stored record's `ID` equals its key. -/
def WF (m : Manager) : Prop :=
  ∀ k s, mapLookup k m.sessions = some s → s.ID = k

theorem WF_nil (cfg : Config) : WF (NewManager cfg) := by
  intro k s h
  simp [NewManager, mapLookup] at h

theorem WF_mapInsert (m : Manager) (cfg : Config) (k : String) (v : Session)
    (hm : WF m) (hv : v.ID = k) :
    WF { sessions := mapInsert k v m.sessions, config := cfg } := by
  intro k2 s h
  by_cases hk : k2 = k
  · subst hk
    rw [mapLookup_mapInsert_self] at h
    have hv2 : v = s := Option.some.inj h
    subst hv2
    exact hv
  · rw [mapLookup_mapInsert_ne k2 k v _ hk] at h
    exact hm k2 s h

/-! ## Hex-encoding lemmas -/

theorem hexChars_length (bs : List Nat) : (hexChars bs).length = 2 * bs.length := by
  induction bs with
  | nil => simp [hexChars]
  | cons v rest ih => simp [hexChars, ih]; omega

theorem hexDigit_mem (n : Nat) : hexDigit n ∈ hexAlphabet := by
  unfold hexDigit
  by_cases h : n < hexAlphabet.length
  · rw [List.getD_eq_getElem _ _ h]
    exact List.getElem_mem h
  · rw [List.getD_eq_default _ _ (Nat.le_of_not_lt h)]
    simp [hexAlphabet]

theorem hexDigitVal_hexDigit : ∀ n < 16, hexDigitVal (hexDigit n) = n := by decide

theorem hexDecode_hexChars (bs : List Nat) (h : ∀ v ∈ bs, v < 256) :
    hexDecode (hexChars bs) = bs := by
  induction bs with
  | nil => simp [hexChars, hexDecode]
  | cons v rest ih =>
      have hv : v < 256 := h v (List.mem_cons_self v rest)
      have hd : v / 16 < 16 := by omega
      have hm : v % 16 < 16 := Nat.mod_lt _ (by omega)
      simp only [hexChars, hexDecode]
      rw [hexDigitVal_hexDigit _ hd, hexDigitVal_hexDigit _ hm,
        ih (fun x hx => h x (List.mem_cons_of_mem v hx))]
      congr 1
      omega

theorem hexEncodeToString_inj (xs ys : List Nat)
    (hx : ∀ v ∈ xs, v < 256) (hy : ∀ v ∈ ys, v < 256)
    (h : hexEncodeToString xs = hexEncodeToString ys) : xs = ys := by
  have hchars : hexChars xs = hexChars ys := by
    have := congrArg String.data h
    simpa [hexEncodeToString] using this
  calc xs = hexDecode (hexChars xs) := (hexDecode_hexChars xs hx).symm
    _ = hexDecode (hexChars ys) := by rw [hchars]
    _ = ys := hexDecode_hexChars ys hy

/-! ## Characterizations of the store operations -/

theorem GetSession_eq_hit (m : Manager) (id : String) (now : Nat) (s : Session)
    (h : mapLookup id m.sessions = some s) :
    GetSession m id now =
      (some { s with LastAccessed := now },
       { m with sessions := mapInsert id { s with LastAccessed := now } m.sessions }) := by
  unfold GetSession
  rw [h]

theorem GetSession_eq_miss (m : Manager) (id : String) (now : Nat)
    (h : mapLookup id m.sessions = none) :
    GetSession m id now = (none, m) := by
  unfold GetSession
  rw [h]

theorem CreateSession_eq (m : Manager) (b : List Nat) (now : Nat) :
    CreateSession m b now =
      (hexEncodeToString b,
       { m with sessions := mapInsert (hexEncodeToString b) { ID := hexEncodeToString b, LastAccessed := now } m.sessions }) := rfl

theorem mintNewSession_eq (m : Manager) (b : List Nat) (now : Nat) :
    mintNewSession m b now =
      (some { ID := hexEncodeToString b, LastAccessed := now },
       { Name := m.config.Session.CookieName
         Value := hexEncodeToString b
         Path := "/"
         Expires := now + m.config.Session.MaxAge
         HttpOnly := m.config.Session.HttpOnly
         Secure := m.config.Session.Secure
         SameSite := SameSiteLaxMode },
       { m with sessions := mapInsert (hexEncodeToString b) { ID := hexEncodeToString b, LastAccessed := now } m.sessions }) := by
  simp only [mintNewSession, CreateSession_eq]
  rw [GetSession_eq_hit _ _ _ { ID := hexEncodeToString b, LastAccessed := now }
    (mapLookup_mapInsert_self _ _ _)]
  simp [mapInsert_mapInsert_self]

theorem GetOrCreateSession_hit (m : Manager) (r : Request) (b : List Nat) (now : Nat)
    (c : Cookie) (s : Session)
    (hc : Request.cookie r m.config.Session.CookieName = some c)
    (hs : mapLookup c.Value m.sessions = some s) :
    GetOrCreateSession m r b now =
      (some { s with LastAccessed := now }, c,
       { m with sessions := mapInsert c.Value { s with LastAccessed := now } m.sessions }) := by
  have step : GetOrCreateSession m r b now =
      match GetSession m c.Value now with
      | (some session, m1) => (some session, c, m1)
      | (none, m1) => mintNewSession m1 b now := by
    unfold GetOrCreateSession
    rw [hc]
  rw [step, GetSession_eq_hit _ _ _ _ hs]

theorem GetOrCreateSession_nocookie (m : Manager) (r : Request) (b : List Nat) (now : Nat)
    (hc : Request.cookie r m.config.Session.CookieName = none) :
    GetOrCreateSession m r b now = mintNewSession m b now := by
  unfold GetOrCreateSession
  rw [hc]

theorem GetOrCreateSession_dead (m : Manager) (r : Request) (b : List Nat) (now : Nat)
    (c : Cookie)
    (hc : Request.cookie r m.config.Session.CookieName = some c)
    (hs : mapLookup c.Value m.sessions = none) :
    GetOrCreateSession m r b now = mintNewSession m b now := by
  have step : GetOrCreateSession m r b now =
      match GetSession m c.Value now with
      | (some session, m1) => (some session, c, m1)
      | (none, m1) => mintNewSession m1 b now := by
    unfold GetOrCreateSession
    rw [hc]
  rw [step, GetSession_eq_miss _ _ _ hs]

/-! ## Well-formedness preservation -/

theorem WF_CreateSession (m : Manager) (b : List Nat) (now : Nat) (h : WF m) :
    WF (CreateSession m b now).2 := by
  rw [CreateSession_eq]
  exact WF_mapInsert m m.config _ _ h rfl

theorem WF_GetSession (m : Manager) (id : String) (now : Nat) (h : WF m) :
    WF (GetSession m id now).2 := by
  match hl : mapLookup id m.sessions with
  | none => rw [GetSession_eq_miss _ _ _ hl]; exact h
  | some s =>
      rw [GetSession_eq_hit _ _ _ _ hl]
      exact WF_mapInsert m m.config _ _ h (h id s hl)

theorem WF_mintNewSession (m : Manager) (b : List Nat) (now : Nat) (h : WF m) :
    WF (mintNewSession m b now).2.2 := by
  rw [mintNewSession_eq]
  exact WF_mapInsert m m.config _ _ h rfl

theorem WF_GetOrCreateSession (m : Manager) (r : Request) (b : List Nat) (now : Nat)
    (h : WF m) : WF (GetOrCreateSession m r b now).2.2 := by
  match hc : Request.cookie r m.config.Session.CookieName with
  | none =>
      rw [GetOrCreateSession_nocookie _ _ _ _ hc]
      exact WF_mintNewSession m b now h
  | some c =>
      match hs : mapLookup c.Value m.sessions with
      | none =>
          rw [GetOrCreateSession_dead _ _ _ _ _ hc hs]
          exact WF_mintNewSession m b now h
      | some s =>
          rw [GetOrCreateSession_hit _ _ _ _ _ _ hc hs]
          exact WF_mapInsert m m.config _ _ h (h c.Value s hs)

/-! ## Interleaved executions of store operations

The Store's single mutex makes each operation's body a critical section, so
a concurrent execution is modelled as an arbitrary interleaving (schedule)
of atomic operations.  Theorems below quantify over all schedules. -/

/-- One store operation of a schedule, with its entropy draw / target id
and the instant at which the operation runs. -/
inductive Op : Type where
  | create : List Nat → Nat → Op
  | get : String → Nat → Op

/-- The state transformation of one scheduled operation. -/
def execOp (m : Manager) : Op → Manager
  | Op.create b t => (CreateSession m b t).2
  | Op.get i t => (GetSession m i t).2

/-- Run a whole schedule of operations against the store. -/
def execTrace (m : Manager) : List Op → Manager
  | [] => m
  | o :: ops => execTrace (execOp m o) ops

/-- The ids returned by the create operations of a schedule (in schedule
order): `CreateSession` returns the hex encoding of its entropy draw. -/
def createdIds : List Op → List String
  | [] => []
  | Op.create b _ :: ops => hexEncodeToString b :: createdIds ops
  | Op.get _ _ :: ops => createdIds ops

/-- Spec-side account of `lastAccessed` for one id, following the spec's
per-key ordering words: a create of this id writes its instant; a get of
this id writes its instant exactly when the id is live; everything else
leaves the value alone.  The source-side state is compared against this. -/
def specLastAccessed : List Op → String → Option Nat → Option Nat
  | [], _, acc => acc
  | Op.create b t :: ops, id, acc =>
      specLastAccessed ops id (if hexEncodeToString b = id then some t else acc)
  | Op.get i t :: ops, id, acc =>
      specLastAccessed ops id (if i = id then (if acc.isSome then some t else acc) else acc)

theorem lookup_execTrace (ops : List Op) (m : Manager) (id : String) :
    (mapLookup id (execTrace m ops).sessions).map Session.LastAccessed
      = specLastAccessed ops id ((mapLookup id m.sessions).map Session.LastAccessed) := by
  induction ops generalizing m with
  | nil => rfl
  | cons o ops ih =>
      cases o with
      | create b t =>
          show (mapLookup id (execTrace (execOp m (Op.create b t)) ops).sessions).map _ = _
          rw [ih]
          simp only [specLastAccessed]
          congr 1
          simp only [execOp, CreateSession_eq]
          by_cases h : hexEncodeToString b = id
          · subst h
            rw [mapLookup_mapInsert_self]
            simp
          · rw [mapLookup_mapInsert_ne id _ _ _ (fun h2 => h h2.symm), if_neg h]
      | get i t =>
          show (mapLookup id (execTrace (execOp m (Op.get i t)) ops).sessions).map _ = _
          rw [ih]
          simp only [specLastAccessed]
          congr 1
          match hl : mapLookup i m.sessions with
          | none =>
              simp only [execOp, GetSession_eq_miss m i t hl]
              by_cases h : i = id
              · subst h
                rw [hl]
                simp
              · rw [if_neg h]
          | some s =>
              simp only [execOp, GetSession_eq_hit m i t s hl]
              by_cases h : i = id
              · subst h
                rw [mapLookup_mapInsert_self, hl]
                simp
              · rw [mapLookup_mapInsert_ne id _ _ _ (fun h2 => h h2.symm), if_neg h]

theorem keys_execTrace (ops : List Op) (m : Manager)
    (hnd : (m.sessions.map Prod.fst).Nodup) :
    ((execTrace m ops).sessions.map Prod.fst).Nodup ∧
    ((execTrace m ops).sessions.map Prod.fst).toFinset
      = (m.sessions.map Prod.fst).toFinset ∪ (createdIds ops).toFinset := by
  induction ops generalizing m with
  | nil => exact ⟨hnd, by simp [execTrace, createdIds]⟩
  | cons o ops ih =>
      cases o with
      | create b t =>
          rw [show execTrace m (Op.create b t :: ops)
              = execTrace (execOp m (Op.create b t)) ops from rfl]
          match hl : mapLookup (hexEncodeToString b) m.sessions with
          | some s =>
              have hmem : hexEncodeToString b ∈ m.sessions.map Prod.fst := by
                by_contra hmem
                rw [(lookup_eq_none_iff_not_mem_fst _ _).2 hmem] at hl
                cases hl
              have hk : (execOp m (Op.create b t)).sessions.map Prod.fst
                  = m.sessions.map Prod.fst := by
                simp only [execOp, CreateSession_eq]
                exact map_fst_mapInsert_of_lookup _ _ s _ hl
              obtain ⟨h1, h2⟩ := ih (execOp m (Op.create b t)) (hk ▸ hnd)
              refine ⟨h1, ?_⟩
              rw [h2, hk]
              ext x
              simp only [Finset.mem_union, List.mem_toFinset, createdIds, List.mem_cons]
              constructor
              · rintro (hx | hx)
                · exact Or.inl hx
                · exact Or.inr (Or.inr hx)
              · rintro (hx | hx | hx)
                · exact Or.inl hx
                · exact Or.inl (hx ▸ hmem)
                · exact Or.inr hx
          | none =>
              have hmem : hexEncodeToString b ∉ m.sessions.map Prod.fst :=
                (lookup_eq_none_iff_not_mem_fst _ _).1 hl
              have hk : (execOp m (Op.create b t)).sessions.map Prod.fst
                  = m.sessions.map Prod.fst ++ [hexEncodeToString b] := by
                simp only [execOp, CreateSession_eq]
                exact map_fst_mapInsert_of_none _ _ _ hl
              have hnd2 : ((execOp m (Op.create b t)).sessions.map Prod.fst).Nodup := by
                rw [hk, List.nodup_append]
                exact ⟨hnd, List.nodup_singleton _,
                  fun x hx hx2 => hmem ((List.mem_singleton.1 hx2) ▸ hx)⟩
              obtain ⟨h1, h2⟩ := ih (execOp m (Op.create b t)) hnd2
              refine ⟨h1, ?_⟩
              rw [h2, hk]
              ext x
              simp only [Finset.mem_union, List.mem_toFinset, createdIds, List.mem_cons,
                List.mem_append, List.mem_singleton]
              tauto
      | get i t =>
          rw [show execTrace m (Op.get i t :: ops)
              = execTrace (execOp m (Op.get i t)) ops from rfl]
          have hk : (execOp m (Op.get i t)).sessions.map Prod.fst
              = m.sessions.map Prod.fst := by
            match hl : mapLookup i m.sessions with
            | none => simp only [execOp, GetSession_eq_miss m i t hl]
            | some s =>
                simp only [execOp, GetSession_eq_hit m i t s hl]
                exact map_fst_mapInsert_of_lookup _ _ s _ hl
          obtain ⟨h1, h2⟩ := ih (execOp m (Op.get i t)) (hk ▸ hnd)
          refine ⟨h1, ?_⟩
          rw [h2, hk]
          rfl

/-! ## Sequential create runs (for the uniqueness claim) -/

/-- Run a list of `CreateSession` calls (entropy draw, instant) in order,
collecting the returned ids. -/
def runCreates (m : Manager) : List (List Nat × Nat) → Manager × List String
  | [] => (m, [])
  | c :: rest =>
      let created := CreateSession m c.1 c.2
      let tail := runCreates created.2 rest
      (tail.1, created.1 :: tail.2)

theorem runCreates_ids (m : Manager) (calls : List (List Nat × Nat)) :
    (runCreates m calls).2 = calls.map (fun c => hexEncodeToString c.1) := by
  induction calls generalizing m with
  | nil => rfl
  | cons c rest ih => simp [runCreates, CreateSession, ih]

/-! ## Concrete fixtures used in witnesses and counterexamples -/

/-- The development-environment session configuration from
`config.getDevelopmentDefaults` (durations in nanoseconds). -/
def devConfig : Config :=
  { Session :=
      { CookieName := "session_id", MaxAge := 86400000000000, Secure := false,
        HttpOnly := true, SameSite := "lax", CleanupInterval := 3600000000000 } }

/-- A configuration requesting a strict same-site policy; identical to
`laxVariantConfig` in every other field. -/
def strictVariantConfig : Config :=
  { Session :=
      { CookieName := "session_id", MaxAge := 100, Secure := true,
        HttpOnly := true, SameSite := "strict", CleanupInterval := 10 } }

/-- A configuration requesting a lax same-site policy; identical to
`strictVariantConfig` in every other field. -/
def laxVariantConfig : Config :=
  { Session :=
      { CookieName := "session_id", MaxAge := 100, Secure := true,
        HttpOnly := true, SameSite := "lax", CleanupInterval := 10 } }

/-- A sample tracked session. -/
def demoSession : Session := { ID := "abcd", LastAccessed := 0 }

/-- A store tracking exactly `demoSession`. -/
def demoManager : Manager :=
  { sessions := [("abcd", demoSession)], config := devConfig }

/-- A request whose cookie jar carries the configured cookie name with the
tracked session id. -/
def demoRequest : Request := { cookies := [("session_id", "abcd")] }

/-- The cookie `demoRequest` yields when parsed. -/
def demoCookie : Cookie :=
  { Name := "session_id", Value := "abcd", Path := "", Expires := 0,
    HttpOnly := false, Secure := false, SameSite := 0 }

/-- A request with no cookie at all. -/
def emptyRequest : Request := { cookies := [] }

/-- A request carrying the configured cookie name with a value the store
never issued. -/
def garbageRequest : Request := { cookies := [("session_id", "garbage")] }

/-- A fixed 16-byte entropy draw. -/
def draw16 : List Nat := [0, 1, 2, 3, 4, 5, 6, 7, 8, 9, 10, 11, 12, 13, 14, 15]

/-- A second, distinct 16-byte entropy draw. -/
def draw16b : List Nat := [255, 1, 2, 3, 4, 5, 6, 7, 8, 9, 10, 11, 12, 13, 14, 15]

/-- The cookie `garbageRequest` yields when parsed. -/
def garbageCookie : Cookie :=
  { Name := "session_id", Value := "garbage", Path := "", Expires := 0,
    HttpOnly := false, Secure := false, SameSite := 0 }

theorem WF_demoManager : WF demoManager := by
  intro k s h
  simp only [demoManager, mapLookup] at h
  by_cases hk : "abcd" = k
  · rw [if_pos hk] at h
    have h2 : demoSession = s := Option.some.inj h
    rw [← h2, ← hk]
    rfl
  · rw [if_neg hk] at h
    cases h

theorem hexChars_mem (bs : List Nat) : ∀ ch ∈ hexChars bs, ch ∈ hexAlphabet := by
  induction bs with
  | nil => simp [hexChars]
  | cons v rest ih =>
      intro ch hch
      simp only [hexChars, List.mem_cons] at hch
      rcases hch with h | h | h
      · exact h ▸ hexDigit_mem _
      · exact h ▸ hexDigit_mem _
      · exact ih ch h

/-! ## Claims -/

/-- C1: for every request carrying a cookie of the configured name whose
value is a tracked session id, `GetOrCreateSession` returns that existing
session (same id, timestamp refreshed by the embedded `GetSession`) and a
cookie descriptor that is exactly the inbound cookie — its value and
expiry are echoed unchanged, with no new descriptor built from
configuration. -/
theorem C1_reuse_echoes_cookie (m : Manager) (r : Request) (b : List Nat) (now : Nat)
    (c : Cookie) (s : Session)
    (hc : Request.cookie r m.config.Session.CookieName = some c)
    (hs : mapLookup c.Value m.sessions = some s) :
    (GetOrCreateSession m r b now).1 = some { s with LastAccessed := now } ∧
    (GetOrCreateSession m r b now).2.1 = c ∧
    (GetOrCreateSession m r b now).2.1.Value = c.Value ∧
    (GetOrCreateSession m r b now).2.1.Expires = c.Expires := by
  rw [GetOrCreateSession_hit m r b now c s hc hs]
  exact ⟨rfl, rfl, rfl, rfl⟩

/-- Witness for C1 at a concrete store, request and entropy draw. -/
theorem C1_reuse_echoes_cookie_witness :
    (Request.cookie demoRequest demoManager.config.Session.CookieName = some demoCookie ∧
     mapLookup demoCookie.Value demoManager.sessions = some demoSession) ∧
    ((GetOrCreateSession demoManager demoRequest draw16 5).1
        = some { demoSession with LastAccessed := 5 } ∧
     (GetOrCreateSession demoManager demoRequest draw16 5).2.1 = demoCookie ∧
     (GetOrCreateSession demoManager demoRequest draw16 5).2.1.Value = demoCookie.Value ∧
     (GetOrCreateSession demoManager demoRequest draw16 5).2.1.Expires = demoCookie.Expires) :=
  ⟨⟨by decide, by decide⟩,
   C1_reuse_echoes_cookie demoManager demoRequest draw16 5 demoCookie demoSession
     (by decide) (by decide)⟩

/-- C3: `GetOrCreateSession` never fails — for every request against a
well-formed store it returns a session (never `none`, even though Go's
return type would allow a nil pointer) together with a cookie descriptor
whose value equals that session's id; a missing or unknown cookie is
handled by minting, not by an error. -/
theorem C3_never_fails (m : Manager) (r : Request) (b : List Nat) (now : Nat)
    (h : WF m) :
    ∃ s c m2, GetOrCreateSession m r b now = (some s, c, m2) ∧ c.Value = s.ID := by
  match hc : Request.cookie r m.config.Session.CookieName with
  | some c =>
      match hs : mapLookup c.Value m.sessions with
      | some s =>
          refine ⟨{ s with LastAccessed := now }, c, _,
            GetOrCreateSession_hit m r b now c s hc hs, ?_⟩
          exact (h c.Value s hs).symm
      | none =>
          rw [GetOrCreateSession_dead m r b now c hc hs, mintNewSession_eq]
          exact ⟨_, _, _, rfl, rfl⟩
  | none =>
      rw [GetOrCreateSession_nocookie m r b now hc, mintNewSession_eq]
      exact ⟨_, _, _, rfl, rfl⟩

/-- Witness for C3 on a cookie-less request against a concrete store. -/
theorem C3_never_fails_witness :
    WF demoManager ∧
    ∃ s c m2, GetOrCreateSession demoManager emptyRequest draw16 3 = (some s, c, m2) ∧
      c.Value = s.ID :=
  ⟨WF_demoManager, C3_never_fails demoManager emptyRequest draw16 3 WF_demoManager⟩

/-- C4: `CreateSession` hex-encodes its 16 random bytes into a 32-character
string over the hex alphabet, inserts under that id a record whose `ID`
equals the id and whose `LastAccessed` is the current time, and returns
the id. -/
theorem C4_create_session (m : Manager) (b : List Nat) (now : Nat) (h : b.length = 16) :
    (CreateSession m b now).1 = hexEncodeToString b ∧
    (CreateSession m b now).1.length = 32 ∧
    (∀ ch ∈ (CreateSession m b now).1.data, ch ∈ hexAlphabet) ∧
    mapLookup (CreateSession m b now).1 (CreateSession m b now).2.sessions
      = some { ID := (CreateSession m b now).1, LastAccessed := now } := by
  refine ⟨rfl, ?_, ?_, ?_⟩
  · show (hexEncodeToString b).length = 32
    rw [show (hexEncodeToString b).length = (hexChars b).length from rfl, hexChars_length, h]
  · intro ch hch
    exact hexChars_mem b ch hch
  · rw [CreateSession_eq]
    exact mapLookup_mapInsert_self _ _ _

/-- Witness for C4 at a concrete 16-byte entropy draw. -/
theorem C4_create_session_witness :
    draw16.length = 16 ∧
    ((CreateSession demoManager draw16 9).1 = hexEncodeToString draw16 ∧
     (CreateSession demoManager draw16 9).1.length = 32 ∧
     (∀ ch ∈ (CreateSession demoManager draw16 9).1.data, ch ∈ hexAlphabet) ∧
     mapLookup (CreateSession demoManager draw16 9).1
         (CreateSession demoManager draw16 9).2.sessions
       = some { ID := (CreateSession demoManager draw16 9).1, LastAccessed := 9 }) :=
  ⟨by decide, C4_create_session demoManager draw16 9 (by decide)⟩

/-- C5: `GetSession` on a hit updates the stored record's `LastAccessed`
to the current time and returns that record; on a miss it returns the
explicit absent signal (`none`, Go's nil) — absence is a normal outcome,
not an error. -/
theorem C5_get_session (m : Manager) (id : String) (now : Nat) :
    (∀ s, mapLookup id m.sessions = some s →
        (GetSession m id now).1 = some { s with LastAccessed := now } ∧
        mapLookup id (GetSession m id now).2.sessions
          = some { s with LastAccessed := now }) ∧
    (mapLookup id m.sessions = none → (GetSession m id now).1 = none) := by
  constructor
  · intro s hs
    rw [GetSession_eq_hit m id now s hs]
    exact ⟨rfl, mapLookup_mapInsert_self _ _ _⟩
  · intro hn
    rw [GetSession_eq_miss m id now hn]

/-- Witness for C5: a hit against a concrete store. -/
theorem C5_get_session_witness :
    mapLookup "abcd" demoManager.sessions = some demoSession ∧
    ((GetSession demoManager "abcd" 7).1 = some { demoSession with LastAccessed := 7 } ∧
     mapLookup "abcd" (GetSession demoManager "abcd" 7).2.sessions
       = some { demoSession with LastAccessed := 7 }) :=
  ⟨by decide, (C5_get_session demoManager "abcd" 7).1 demoSession (by decide)⟩

/-- C8: a successful `GetSession` mutates only the timestamp of the entry
stored under the looked-up id — the key set and every other entry are
unchanged, and the entry keeps its `ID` (only `LastAccessed` moves); a
failed `GetSession` leaves the whole store state unchanged. -/
theorem C8_get_session_frame (m : Manager) (id : String) (now : Nat) :
    (∀ s, mapLookup id m.sessions = some s →
        (GetSession m id now).2.sessions.map Prod.fst = m.sessions.map Prod.fst ∧
        (∀ k, k ≠ id →
          mapLookup k (GetSession m id now).2.sessions = mapLookup k m.sessions) ∧
        mapLookup id (GetSession m id now).2.sessions
          = some { s with LastAccessed := now }) ∧
    (mapLookup id m.sessions = none → (GetSession m id now).2 = m) := by
  constructor
  · intro s hs
    rw [GetSession_eq_hit m id now s hs]
    exact ⟨map_fst_mapInsert_of_lookup _ _ _ _ hs,
           fun k hk => mapLookup_mapInsert_ne k id _ _ hk,
           mapLookup_mapInsert_self _ _ _⟩
  · intro hn
    rw [GetSession_eq_miss m id now hn]

/-- Witness for C8: a hit against a concrete two-entry store. -/
theorem C8_get_session_frame_witness :
    mapLookup "abcd" demoManager.sessions = some demoSession ∧
    ((GetSession demoManager "abcd" 11).2.sessions.map Prod.fst
        = demoManager.sessions.map Prod.fst ∧
     (∀ k, k ≠ "abcd" →
        mapLookup k (GetSession demoManager "abcd" 11).2.sessions
          = mapLookup k demoManager.sessions) ∧
     mapLookup "abcd" (GetSession demoManager "abcd" 11).2.sessions
       = some { demoSession with LastAccessed := 11 }) :=
  ⟨by decide, (C8_get_session_frame demoManager "abcd" 11).1 demoSession (by decide)⟩

/-- C9: on the reuse path the returned descriptor is the cookie as parsed
from the request header, which carries only `Name` and `Value`: its
expiry is the zero time, its http-only and secure flags are false, its
path is empty and its same-site policy is unset, whatever the configured
session cookie flags say. -/
theorem C9_reuse_cookie_zero_fields (m : Manager) (r : Request) (b : List Nat) (now : Nat)
    (c : Cookie) (s : Session)
    (hc : Request.cookie r m.config.Session.CookieName = some c)
    (hs : mapLookup c.Value m.sessions = some s) :
    (GetOrCreateSession m r b now).2.1 = c ∧
    c.Expires = 0 ∧ c.HttpOnly = false ∧ c.Secure = false ∧ c.Path = "" ∧ c.SameSite = 0 := by
  have hcz : c.Expires = 0 ∧ c.HttpOnly = false ∧ c.Secure = false ∧
      c.Path = "" ∧ c.SameSite = 0 := by
    unfold Request.cookie at hc
    match hf : r.cookies.find? (fun p => p.1 = m.config.Session.CookieName) with
    | none => rw [hf] at hc; cases hc
    | some p =>
        rw [hf] at hc
        have h2 := Option.some.inj hc
        rw [← h2]
        exact ⟨rfl, rfl, rfl, rfl, rfl⟩
  refine ⟨?_, hcz.1, hcz.2.1, hcz.2.2.1, hcz.2.2.2.1, hcz.2.2.2.2⟩
  rw [GetOrCreateSession_hit m r b now c s hc hs]

/-- Witness for C9 at a concrete store and request. -/
theorem C9_reuse_cookie_zero_fields_witness :
    (Request.cookie demoRequest demoManager.config.Session.CookieName = some demoCookie ∧
     mapLookup demoCookie.Value demoManager.sessions = some demoSession) ∧
    ((GetOrCreateSession demoManager demoRequest draw16 13).2.1 = demoCookie ∧
     demoCookie.Expires = 0 ∧ demoCookie.HttpOnly = false ∧ demoCookie.Secure = false ∧
     demoCookie.Path = "" ∧ demoCookie.SameSite = 0) :=
  ⟨⟨by decide, by decide⟩,
   C9_reuse_cookie_zero_fields demoManager demoRequest draw16 13 demoCookie demoSession
     (by decide) (by decide)⟩

/-- C2 counterexample: the same-site flag of the minted cookie is NOT taken
from the configuration — two configurations identical except for their
`SameSite` setting ("strict" vs "lax") produce identical minted cookies,
and the cookie's policy is the hardcoded `http.SameSiteLaxMode` even when
the configuration says "strict". -/
theorem C2_samesite_not_from_config :
    strictVariantConfig.Session.SameSite = "strict" ∧
    laxVariantConfig.Session.SameSite = "lax" ∧
    strictVariantConfig.Session.SameSite ≠ laxVariantConfig.Session.SameSite ∧
    (GetOrCreateSession (NewManager strictVariantConfig) emptyRequest draw16 0).2.1
      = (GetOrCreateSession (NewManager laxVariantConfig) emptyRequest draw16 0).2.1 ∧
    (GetOrCreateSession (NewManager strictVariantConfig) emptyRequest draw16 0).2.1.SameSite
      = SameSiteLaxMode := by
  refine ⟨rfl, rfl, by decide, by decide, by decide⟩

/-- C2 (amended): on the no-cookie or unknown-id path, `GetOrCreateSession`
creates a fresh id (the supplied invalid value is discarded: the map gains
exactly the new id), looks it up again, and returns a cookie with value =
the new id, expiry = now + the configured max age, path = "/", http-only
and secure flags from the configuration — but same-site hardcoded to
`http.SameSiteLaxMode`, ignoring the configured same-site value. -/
theorem C2_mint_builds_cookie (m : Manager) (r : Request) (b : List Nat) (now : Nat)
    (hmiss : Request.cookie r m.config.Session.CookieName = none ∨
      ∃ c, Request.cookie r m.config.Session.CookieName = some c ∧
        mapLookup c.Value m.sessions = none) :
    (GetOrCreateSession m r b now).2.1 =
      { Name := m.config.Session.CookieName, Value := hexEncodeToString b, Path := "/",
        Expires := now + m.config.Session.MaxAge, HttpOnly := m.config.Session.HttpOnly,
        Secure := m.config.Session.Secure, SameSite := SameSiteLaxMode } ∧
    (GetOrCreateSession m r b now).1
      = some { ID := hexEncodeToString b, LastAccessed := now } ∧
    (GetOrCreateSession m r b now).2.2.sessions
      = mapInsert (hexEncodeToString b) { ID := hexEncodeToString b, LastAccessed := now }
          m.sessions := by
  have hmint : GetOrCreateSession m r b now = mintNewSession m b now := by
    rcases hmiss with hc | ⟨c, hc, hs⟩
    · exact GetOrCreateSession_nocookie m r b now hc
    · exact GetOrCreateSession_dead m r b now c hc hs
  rw [hmint, mintNewSession_eq]
  exact ⟨rfl, rfl, rfl⟩

/-- Witness for the amended C2: a dead-id cookie against a concrete store. -/
theorem C2_mint_builds_cookie_witness :
    (Request.cookie garbageRequest demoManager.config.Session.CookieName
        = some garbageCookie ∧
     mapLookup garbageCookie.Value demoManager.sessions = none) ∧
    ((GetOrCreateSession demoManager garbageRequest draw16 7).2.1 =
        { Name := demoManager.config.Session.CookieName, Value := hexEncodeToString draw16,
          Path := "/", Expires := 7 + demoManager.config.Session.MaxAge,
          HttpOnly := demoManager.config.Session.HttpOnly,
          Secure := demoManager.config.Session.Secure, SameSite := SameSiteLaxMode } ∧
     (GetOrCreateSession demoManager garbageRequest draw16 7).1
        = some { ID := hexEncodeToString draw16, LastAccessed := 7 } ∧
     (GetOrCreateSession demoManager garbageRequest draw16 7).2.2.sessions
        = mapInsert (hexEncodeToString draw16)
            { ID := hexEncodeToString draw16, LastAccessed := 7 } demoManager.sessions) :=
  ⟨⟨by decide, by decide⟩,
   C2_mint_builds_cookie demoManager garbageRequest draw16 7
     (Or.inr ⟨garbageCookie, by decide, by decide⟩)⟩

/-- C6 counterexample: `CreateSession` performs no collision check, so when
the random source happens to return the same 16 bytes twice, two calls on
one store return the very same id — the returned ids of a run are not
unconditionally pairwise distinct. -/
theorem C6_collision_when_entropy_repeats :
    ¬ ((runCreates (NewManager devConfig) [(draw16, 0), (draw16, 1)]).2.Pairwise
        (fun a b => a ≠ b)) := by
  decide

theorem pairwise_hex_ne_of_pairwise_ne (calls : List (List Nat × Nat))
    (hvalid : ∀ c ∈ calls, ∀ v ∈ c.1, v < 256)
    (hdraws : (calls.map Prod.fst).Pairwise (fun a b => a ≠ b)) :
    calls.Pairwise (fun a b => hexEncodeToString a.1 ≠ hexEncodeToString b.1) := by
  induction calls with
  | nil => exact List.Pairwise.nil
  | cons c rest ih =>
      rw [List.map_cons, List.pairwise_cons] at hdraws
      rw [List.pairwise_cons]
      refine ⟨?_, ih (fun x hx => hvalid x (List.mem_cons_of_mem c hx)) hdraws.2⟩
      intro d hd heq
      exact hdraws.1 d.1 (List.mem_map.2 ⟨d, hd, rfl⟩)
        (hexEncodeToString_inj c.1 d.1
          (hvalid c (List.mem_cons_self c rest))
          (hvalid d (List.mem_cons_of_mem c hd)) heq)

/-- C6 (amended): for all N sequential calls to `CreateSession` on one
store, the returned ids are pairwise distinct provided the 16-byte random
draws supplied to those calls are pairwise distinct (hex encoding is
injective on byte strings); the code has no collision check, so this
entropy assumption is exactly what uniqueness rests on. -/
theorem C6_distinct_draws_distinct_ids (m : Manager) (calls : List (List Nat × Nat))
    (hvalid : ∀ c ∈ calls, ∀ v ∈ c.1, v < 256)
    (hdraws : (calls.map Prod.fst).Pairwise (fun a b => a ≠ b)) :
    (runCreates m calls).2.Pairwise (fun a b => a ≠ b) := by
  rw [runCreates_ids]
  exact List.pairwise_map.2 (pairwise_hex_ne_of_pairwise_ne calls hvalid hdraws)

/-- Witness for the amended C6: two distinct concrete draws. -/
theorem C6_distinct_draws_distinct_ids_witness :
    ((∀ c ∈ [(draw16, 0), (draw16b, 1)], ∀ v ∈ c.1, v < 256) ∧
     ([(draw16, 0), (draw16b, 1)].map Prod.fst).Pairwise (fun a b => a ≠ b)) ∧
    (runCreates (NewManager devConfig) [(draw16, 0), (draw16b, 1)]).2.Pairwise
      (fun a b => a ≠ b) :=
  ⟨⟨by decide, by decide⟩,
   C6_distinct_draws_distinct_ids (NewManager devConfig) [(draw16, 0), (draw16b, 1)]
     (by decide) (by decide)⟩

/-- C7: every operation preserves the store invariant that each stored
record's `ID` equals its key, and no operation ever changes the `ID` of a
record that survives it — only `LastAccessed` is ever mutated. -/
theorem C7_id_immutable (m : Manager) (b b2 : List Nat) (id : String) (r : Request)
    (now : Nat) (h : WF m) :
    WF (CreateSession m b now).2 ∧
    WF (GetSession m id now).2 ∧
    WF (GetOrCreateSession m r b2 now).2.2 ∧
    (∀ k s s2, mapLookup k m.sessions = some s →
        mapLookup k (CreateSession m b now).2.sessions = some s2 → s2.ID = s.ID) ∧
    (∀ k s s2, mapLookup k m.sessions = some s →
        mapLookup k (GetSession m id now).2.sessions = some s2 → s2.ID = s.ID) ∧
    (∀ k s s2, mapLookup k m.sessions = some s →
        mapLookup k (GetOrCreateSession m r b2 now).2.2.sessions = some s2 →
          s2.ID = s.ID) := by
  have hc := WF_CreateSession m b now h
  have hg := WF_GetSession m id now h
  have ho := WF_GetOrCreateSession m r b2 now h
  refine ⟨hc, hg, ho, ?_, ?_, ?_⟩
  · intro k s s2 h1 h2
    exact (hc k s2 h2).trans (h k s h1).symm
  · intro k s s2 h1 h2
    exact (hg k s2 h2).trans (h k s h1).symm
  · intro k s s2 h1 h2
    exact (ho k s2 h2).trans (h k s h1).symm

/-- Witness for C7 against a concrete well-formed store. -/
theorem C7_id_immutable_witness :
    WF demoManager ∧
    (WF (CreateSession demoManager draw16 2).2 ∧
     WF (GetSession demoManager "abcd" 2).2 ∧
     WF (GetOrCreateSession demoManager demoRequest draw16b 2).2.2 ∧
     (∀ k s s2, mapLookup k demoManager.sessions = some s →
        mapLookup k (CreateSession demoManager draw16 2).2.sessions = some s2 →
          s2.ID = s.ID) ∧
     (∀ k s s2, mapLookup k demoManager.sessions = some s →
        mapLookup k (GetSession demoManager "abcd" 2).2.sessions = some s2 →
          s2.ID = s.ID) ∧
     (∀ k s s2, mapLookup k demoManager.sessions = some s →
        mapLookup k (GetOrCreateSession demoManager demoRequest draw16b 2).2.2.sessions
            = some s2 → s2.ID = s.ID)) :=
  ⟨WF_demoManager,
   C7_id_immutable demoManager draw16 draw16b "abcd" demoRequest 2 WF_demoManager⟩

/-- C10: with the single lock making each operation atomic, every
interleaving (schedule) of `CreateSession` / `GetSession` calls against
one store loses no insertion — the final key set is exactly the set of
created ids and the map's final size equals the number of distinct
creates — and for each id the operations are totally ordered, so a
lookup observes the timestamp of the last preceding write to that id. -/
theorem C10_concurrent_schedules (cfg : Config) (ops : List Op) :
    ((execTrace (NewManager cfg) ops).sessions.map Prod.fst).toFinset
      = (createdIds ops).toFinset ∧
    (execTrace (NewManager cfg) ops).sessions.length = (createdIds ops).toFinset.card ∧
    (∀ id, (mapLookup id (execTrace (NewManager cfg) ops).sessions).map Session.LastAccessed
        = specLastAccessed ops id none) := by
  obtain ⟨hnd, hset⟩ := keys_execTrace ops (NewManager cfg) (by simp [NewManager])
  have hset2 : ((execTrace (NewManager cfg) ops).sessions.map Prod.fst).toFinset
      = (createdIds ops).toFinset := by
    rw [hset]
    simp [NewManager]
  refine ⟨hset2, ?_, ?_⟩
  · rw [show (execTrace (NewManager cfg) ops).sessions.length
        = ((execTrace (NewManager cfg) ops).sessions.map Prod.fst).length
      from (List.length_map _ _).symm]
    rw [← List.toFinset_card_of_nodup hnd, hset2]
  · intro id
    have h2 := lookup_execTrace ops (NewManager cfg) id
    simpa [NewManager, mapLookup] using h2

end SessionCore
